import Mathlib

/-!
Verification of the adaptive batch categorization pipeline of this repository
(`categorizeExpenses/dagger/src/main/__init__.py` and
`categorizeTransactions/dagger/src/main/__init__.py`).

The Python code is shallowly embedded:

* a transaction record (a Python dict) is an association list of string
  fields with dict-style first-key lookup (`dictGet`) and dict-style
  assignment (`dictSet`); field values are modelled as strings since the
  scheduler only ever reads the `Description` and `Transaction ID` fields
  and writes the `Category` field, all strings;
* wall-clock instants and durations (`time.time()` floats) are modelled as
  rationals supplied per round by an environment `Env`;
* the remote Hugging Face classification response is modelled by
  `HFResponse`: the success flag of `response.ok`, the optional ranked
  label list of `data['labels']`, and a flag for the presence of the
  `scores` key (the code only ever tests `'scores' in data`, never reads
  the scores themselves);
* the per-round classifier outcomes are supplied by an oracle
  `Env.resp round index description`, one outbound call per record;
* the unbounded `while unprocessed:` loop of `categorize` is run on fuel:
  `RunResult.outOfFuel` reports the loop state reached when the fuel is
  exhausted while work remains, so non-termination is observable;
* a Python exception escaping the batch script (the `data['labels'][0]`
  index error on an empty label list, which kills the container and makes
  the container output unparsable) is modelled by `Option`/`RunResult.crashed`;
* `json.loads` of the input payload is an external library call and is
  modelled as an abstract partial parse function `String → Option (List Transaction)`.

Ghost instrumentation (`calls`, `sleeps` counters) records the number of
outbound classification calls and of inter-round sleeps without affecting
the data flow.
-/

/-- A transaction record: a Python dict with string fields. -/
abbrev Transaction := List (String × String)

/-- Python dict lookup `d[k]` / `d.get(k)`: the value at the first matching key. -/
def dictGet (d : Transaction) (k : String) : Option String :=
  (d.find? (fun p => p.1 = k)).map Prod.snd

/-- Python dict assignment `d[k] = v`: replace the value at an existing key,
otherwise append the new binding. -/
def dictSet (d : Transaction) (k v : String) : Transaction :=
  if d.any (fun p => p.1 = k) then
    d.map (fun p => if p.1 = k then (k, v) else p)
  else
    d ++ [(k, v)]

/-- The identity of a transaction: all its fields except the `Category` field
that classification adds.  Two records are the same transaction when their
identities are equal. -/
def ident (t : Transaction) : Transaction :=
  t.filter (fun p => ¬ p.1 = "Category")

/-- `transaction.get('Description', '')`: the description submitted to the
classifier, the empty string when the field is missing. -/
def submittedDesc (t : Transaction) : String :=
  (dictGet t "Description").getD ""

/-- The remote classification response as observed by the batch script:
`ok` is `response.ok`, `labels` is the ranked label list when the `labels`
key is present, `hasScores` records whether the `scores` key is present
(the code only tests membership of that key). -/
structure HFResponse where
  ok : Bool
  labels : Option (List String)
  hasScores : Bool
deriving DecidableEq, Repr

/-- What happens to one record of a batch, following the per-record branch of
the batch script: on `response.ok` with both `labels` and `scores` present the
record is classified with `data['labels'][0]`; an empty label list there makes
`data['labels'][0]` raise and kills the whole batch (`crash`); every other
response routes the record to the unprocessed output. -/
inductive RecordOutcome where
  | success (label : String)
  | failure
  | crash
deriving DecidableEq, Repr

/-- Classify one response into the branch the batch script takes for it. -/
def outcomeOf (h : HFResponse) : RecordOutcome :=
  if h.ok then
    match h.labels, h.hasScores with
    | some (l :: _), true => .success l
    | some [], true => .crash
    | _, _ => .failure
  else .failure

/-- The response is a clean per-record success (record gets `Category`). -/
def isSuccess (h : HFResponse) : Bool :=
  match outcomeOf h with
  | .success _ => true
  | _ => false

/-- The response makes the batch script raise (uncatchable at the scheduler). -/
def isCrash (h : HFResponse) : Bool :=
  outcomeOf h = .crash

/-- The per-record loop of the batch script in `process_batch`: walks the
batch in order, one classification call per record (`i` is the index of the
next call, `resp i d` the response to submitting description `d` as call `i`);
returns the `processed` and `unprocessed` lists, or `none` when a response
crashes the script. -/
def process_batch_go (resp : Nat → String → HFResponse) :
    Nat → List Transaction → Option (List Transaction × List Transaction)
  | _, [] => some ([], [])
  | i, t :: ts =>
    match outcomeOf (resp i (submittedDesc t)) with
    | .success l =>
      (process_batch_go resp (i + 1) ts).map
        (fun pu => (dictSet t "Category" l :: pu.1, pu.2))
    | .failure =>
      (process_batch_go resp (i + 1) ts).map (fun pu => (pu.1, t :: pu.2))
    | .crash => none

/-- `process_batch`: submit each record of the batch in order and split the
batch into classified and unclassified records. -/
def process_batch (resp : Nat → String → HFResponse) (ts : List Transaction) :
    Option (List Transaction × List Transaction) :=
  process_batch_go resp 0 ts

/-- The classified output `process_batch` owes: the records whose call
succeeded, in input order, each with `Category` set to the top-ranked label. -/
def classifiedFrom (resp : Nat → String → HFResponse) (i : Nat) (ts : List Transaction) :
    List Transaction :=
  (List.enumFrom i ts).filterMap (fun it =>
    match outcomeOf (resp it.1 (submittedDesc it.2)) with
    | .success l => some (dictSet it.2 "Category" l)
    | _ => none)

/-- The unclassified output `process_batch` owes: the records whose call
failed cleanly, unmutated, in input order. -/
def failedFrom (resp : Nat → String → HFResponse) (i : Nat) (ts : List Transaction) :
    List Transaction :=
  (List.enumFrom i ts).filterMap (fun it =>
    match outcomeOf (resp it.1 (submittedDesc it.2)) with
    | .failure => some it.2
    | _ => none)

/-- `initial_batch_size = 50`. -/
def initial_batch_size : Nat := 50

/-- The scheduler's mutable telemetry: `current_batch_size`,
`api_call_times` and `response_times` of the `CategorizeExpenses` object. -/
structure SchedState where
  current_batch_size : Nat
  api_call_times : List ℚ
  response_times : List ℚ
deriving DecidableEq, Repr

/-- Python `l[-n:]`: the last `n` elements of a list. -/
def lastN (n : Nat) (l : List ℚ) : List ℚ :=
  l.drop (l.length - n)

/-- First guard of `adjust_batch_size`:
`len(api_call_times) > 1 and api_call_times[-1] - api_call_times[0] < 60`. -/
def window_saturated (st : SchedState) : Prop :=
  1 < st.api_call_times.length ∧
    st.api_call_times.getLastD 0 - st.api_call_times.headD 0 < 60

instance (st : SchedState) : Decidable (window_saturated st) := by
  unfold window_saturated; infer_instance

/-- Second guard of `adjust_batch_size`:
`response_times and len(response_times) >= 5 and sum(response_times[-5:]) / 5 < 1`. -/
def fast_responses (st : SchedState) : Prop :=
  st.response_times ≠ [] ∧ 5 ≤ st.response_times.length ∧
    (lastN 5 st.response_times).sum / 5 < 1

instance (st : SchedState) : Decidable (fast_responses st) := by
  unfold fast_responses; infer_instance

/-- `adjust_batch_size`: shrink by one (floored at 1) when the 60-second call
window is saturated, else grow by one when the last five latencies average
under a second, else leave the batch size unchanged; returns the new size. -/
def adjust_batch_size (st : SchedState) : Nat :=
  if window_saturated st then
    max 1 (st.current_batch_size - 1)
  else if fast_responses st then
    st.current_batch_size + 1
  else
    st.current_batch_size

/-- `cleanup_api_call_times`: keep only the call times within the last minute
of `current_time`. -/
def cleanup_api_call_times (current_time : ℚ) (st : SchedState) : SchedState :=
  { st with api_call_times :=
      st.api_call_times.filter (fun call_time => current_time - call_time < 60) }

/-- `retry_delay = 5`: the fixed sleep between rounds with leftover work. -/
def retry_delay : Nat := 5

/-- The state of the `while unprocessed:` loop of `categorize`, plus ghost
counters: `round` counts completed rounds, `calls` the outbound
classification calls made, `sleeps` the inter-round sleeps taken. -/
structure LoopState where
  round : Nat
  processed : List Transaction
  unprocessed : List Transaction
  calls : Nat
  sleeps : Nat
  sched : SchedState
deriving DecidableEq, Repr

/-- The loop state at entry of `categorize`: nothing processed, the parsed
input as the work queue, fresh telemetry with the default batch size. -/
def initState (txs : List Transaction) : LoopState :=
  { round := 0
    processed := []
    unprocessed := txs
    calls := 0
    sleeps := 0
    sched :=
      { current_batch_size := initial_batch_size
        api_call_times := []
        response_times := [] } }

/-- The external world one run of `categorize` observes: the classifier's
response to call `i` of round `r` on a submitted description, and the
wall-clock instants `time.time()` returns before the batch call, after it,
and inside `cleanup_api_call_times`. -/
structure Env where
  resp : Nat → Nat → String → HFResponse
  startT : Nat → ℚ
  endT : Nat → ℚ
  cleanT : Nat → ℚ

/-- One round of the `while unprocessed:` loop of `categorize`: adjust the
batch size, draw the batch from the front of the queue, classify it, append
the completion time and the round duration to the telemetry, prune the call
times, append the successes to `processed`, put the failures back at the
front of the queue, and sleep when work remains.  `none` when the batch
script crashed. -/
def categorizeRound (env : Env) (s : LoopState) : Option LoopState :=
  let batch_size := adjust_batch_size s.sched
  let sched1 := { s.sched with current_batch_size := batch_size }
  let batch := s.unprocessed.take batch_size
  let rest := s.unprocessed.drop batch_size
  match process_batch (env.resp s.round) batch with
  | none => none
  | some (batch_processed, batch_unprocessed) =>
    let endTime := env.endT s.round
    let sched2 := { sched1 with
        api_call_times := sched1.api_call_times ++ [endTime]
        response_times := sched1.response_times ++ [endTime - env.startT s.round] }
    let sched3 := cleanup_api_call_times (env.cleanT s.round) sched2
    let newUnprocessed := batch_unprocessed ++ rest
    some { round := s.round + 1
           processed := s.processed ++ batch_processed
           unprocessed := newUnprocessed
           calls := s.calls + batch.length
           sleeps := s.sleeps + (if newUnprocessed = [] then 0 else 1)
           sched := sched3 }

/-- Outcome of running the `categorize` loop on bounded fuel: the loop
returned `processed` with the queue drained (`done`), the batch script blew
up (`crashed`), or work remained when the fuel ran out (`outOfFuel`). -/
inductive RunResult where
  | done (s : LoopState)
  | crashed
  | outOfFuel (s : LoopState)
deriving DecidableEq, Repr

/-- The `while unprocessed:` loop of `categorize`, running at most `fuel`
rounds. -/
def categorizeLoop (env : Env) : Nat → LoopState → RunResult
  | 0, s => if s.unprocessed = [] then .done s else .outOfFuel s
  | fuel + 1, s =>
    if s.unprocessed = [] then .done s
    else
      match categorizeRound env s with
      | none => .crashed
      | some s' => categorizeLoop env fuel s'

/-- Result of the whole `categorize` function: the `json.loads(data)` call
raised (`fatalParse`), or the loop ran. -/
inductive CatResult where
  | fatalParse
  | runResult (r : RunResult)
deriving DecidableEq, Repr

/-- `categorize`: parse the input payload (the abstract `parse` stands for
`json.loads`; `none` is a raised parse error) and drive the work queue. -/
def categorize (parse : String → Option (List Transaction)) (env : Env)
    (fuel : Nat) (data : String) : CatResult :=
  match parse data with
  | none => .fatalParse
  | some txs => .runResult (categorizeLoop env fuel (initState txs))

/-- `max_retries = 3` of `process_transactions` in `categorizeTransactions`. -/
def max_retries : Nat := 3

/-- The retry loop of `process_transactions`: `attempts k` is the outcome of
attempt number `k` (`none` when the container call or its output parse raised,
`some` the clean `(processed, unprocessed)` split).  Counts down the remaining
attempts; when `max_retries` attempts have all raised, the function raises
`RuntimeError` (`Except.error`). -/
def process_transactions_go
    (attempts : Nat → Option (List Transaction × List Transaction)) :
    Nat → Nat → Except Unit (List Transaction × List Transaction)
  | 0, _ => .error ()
  | remaining + 1, k =>
    match attempts k with
    | some r => .ok r
    | none => process_transactions_go attempts remaining (k + 1)

/-- `process_transactions` of `categorizeTransactions`: up to `max_retries`
attempts, raising after the last. -/
def process_transactions
    (attempts : Nat → Option (List Transaction × List Transaction)) :
    Except Unit (List Transaction × List Transaction) :=
  process_transactions_go attempts max_retries 0

/-- `filter_existing` of `categorizeTransactions`: drop the transactions whose
`Transaction ID` is already among the ids persisted in the database
(`trans.get('Transaction ID') not in existing_ids`; a record with no id has
`None` there, which is never in the id set, so it is kept). -/
def filter_existing (existing_ids : List String) (transactions : List Transaction) :
    List Transaction :=
  transactions.filter (fun trans =>
    match dictGet trans "Transaction ID" with
    | none => true
    | some v => ¬ existing_ids.contains v)

/-! ### Dictionary lemmas -/

lemma dictSet_cons_ne (p : String × String) (ts : Transaction) (k v : String)
    (hp : ¬ p.1 = k) : dictSet (p :: ts) k v = p :: dictSet ts k v := by
  unfold dictSet
  simp only [List.any_cons, List.map_cons, List.cons_append]
  by_cases h : ts.any (fun q => q.1 = k)
  · simp [h, hp]
  · simp [h, hp]

lemma dictGet_dictSet_self (t : Transaction) (k v : String) :
    dictGet (dictSet t k v) k = some v := by
  induction t with
  | nil => simp [dictSet, dictGet]
  | cons p ts ih =>
    by_cases hp : p.1 = k
    · simp [dictSet, dictGet, hp]
    · rw [dictSet_cons_ne p ts k v hp]
      show ((p :: dictSet ts k v).find? (fun q => q.1 = k)).map Prod.snd = some v
      rw [List.find?_cons_of_neg]
      · exact ih
      · simp [hp]

lemma ident_map_category (t : Transaction) (l : String) :
    ident (t.map (fun p => if p.1 = "Category" then ("Category", l) else p)) = ident t := by
  unfold ident
  induction t with
  | nil => rfl
  | cons p ts ih =>
    rw [List.map_cons]
    by_cases hp : p.1 = "Category"
    · rw [if_pos hp, List.filter_cons, List.filter_cons]
      simp only [hp]
      simpa using ih
    · rw [if_neg hp, List.filter_cons, List.filter_cons]
      simp only [hp]
      simpa using ih

lemma ident_dictSet_category (t : Transaction) (l : String) :
    ident (dictSet t "Category" l) = ident t := by
  unfold dictSet
  by_cases h : t.any (fun p => p.1 = "Category")
  · rw [if_pos h]; exact ident_map_category t l
  · rw [if_neg h]
    unfold ident
    rw [List.filter_append]
    simp

/-! ### `process_batch` lemmas -/

lemma classifiedFrom_cons_success (resp : Nat → String → HFResponse) (i : Nat)
    (t : Transaction) (ts : List Transaction) (l : String)
    (hc : outcomeOf (resp i (submittedDesc t)) = .success l) :
    classifiedFrom resp i (t :: ts) =
      dictSet t "Category" l :: classifiedFrom resp (i + 1) ts := by
  simp [classifiedFrom, hc]

lemma classifiedFrom_cons_failure (resp : Nat → String → HFResponse) (i : Nat)
    (t : Transaction) (ts : List Transaction)
    (hc : outcomeOf (resp i (submittedDesc t)) = .failure) :
    classifiedFrom resp i (t :: ts) = classifiedFrom resp (i + 1) ts := by
  simp [classifiedFrom, hc]

lemma failedFrom_cons_success (resp : Nat → String → HFResponse) (i : Nat)
    (t : Transaction) (ts : List Transaction) (l : String)
    (hc : outcomeOf (resp i (submittedDesc t)) = .success l) :
    failedFrom resp i (t :: ts) = failedFrom resp (i + 1) ts := by
  simp [failedFrom, hc]

lemma failedFrom_cons_failure (resp : Nat → String → HFResponse) (i : Nat)
    (t : Transaction) (ts : List Transaction)
    (hc : outcomeOf (resp i (submittedDesc t)) = .failure) :
    failedFrom resp i (t :: ts) = t :: failedFrom resp (i + 1) ts := by
  simp [failedFrom, hc]

/-- Whenever the batch script returns, its two outputs are exactly the
success- and failure-subsequences of the batch. -/
lemma process_batch_go_eq_some (resp : Nat → String → HFResponse) :
    ∀ (i : Nat) (ts p u : List Transaction),
      process_batch_go resp i ts = some (p, u) →
      p = classifiedFrom resp i ts ∧ u = failedFrom resp i ts := by
  intro i ts
  induction ts generalizing i with
  | nil =>
    intro p u h
    simp only [process_batch_go, Option.some.injEq, Prod.mk.injEq] at h
    simp [classifiedFrom, failedFrom, ← h.1, ← h.2]
  | cons t ts ih =>
    intro p u h
    cases hc : outcomeOf (resp i (submittedDesc t)) with
    | success l =>
      simp only [process_batch_go, hc] at h
      rcases Option.map_eq_some'.mp h with ⟨⟨p', u'⟩, hrec, heq⟩
      obtain ⟨hp, hu⟩ := Prod.mk.injEq .. ▸ heq
      obtain ⟨ihp, ihu⟩ := ih (i + 1) p' u' hrec
      subst hp hu
      rw [classifiedFrom_cons_success resp i t ts l hc,
        failedFrom_cons_success resp i t ts l hc]
      exact ⟨by rw [ihp], ihu⟩
    | failure =>
      simp only [process_batch_go, hc] at h
      rcases Option.map_eq_some'.mp h with ⟨⟨p', u'⟩, hrec, heq⟩
      obtain ⟨hp, hu⟩ := Prod.mk.injEq .. ▸ heq
      obtain ⟨ihp, ihu⟩ := ih (i + 1) p' u' hrec
      subst hp hu
      rw [classifiedFrom_cons_failure resp i t ts hc,
        failedFrom_cons_failure resp i t ts hc]
      exact ⟨ihp, by rw [ihu]⟩
    | crash =>
      simp only [process_batch_go, hc] at h
      exact absurd h (by simp)

lemma isSuccess_iff (h : HFResponse) :
    isSuccess h = true ↔ ∃ l, outcomeOf h = .success l := by
  unfold isSuccess
  cases hc : outcomeOf h <;> simp [hc]

lemma isCrash_iff (h : HFResponse) :
    isCrash h = true ↔ outcomeOf h = .crash := by
  unfold isCrash
  cases hc : outcomeOf h <;> simp [hc]

/-- A batch whose responses never crash the script returns cleanly. -/
lemma process_batch_go_isSome (resp : Nat → String → HFResponse)
    (hnc : ∀ j d, isCrash (resp j d) = false) :
    ∀ (i : Nat) (ts : List Transaction), (process_batch_go resp i ts).isSome = true := by
  intro i ts
  induction ts generalizing i with
  | nil => simp [process_batch_go]
  | cons t ts ih =>
    cases hc : outcomeOf (resp i (submittedDesc t)) with
    | success l =>
      simp only [process_batch_go, hc, Option.isSome_map']
      exact ih (i + 1)
    | failure =>
      simp only [process_batch_go, hc, Option.isSome_map']
      exact ih (i + 1)
    | crash =>
      have hfalse := hnc i (submittedDesc t)
      rw [← isCrash_iff] at hc
      rw [hfalse] at hc
      exact absurd hc (by simp)

/-- The batch script neither duplicates nor drops records: the identities of
its two outputs together are exactly the identities of the batch. -/
lemma process_batch_go_multiset (resp : Nat → String → HFResponse) :
    ∀ (i : Nat) (ts p u : List Transaction),
      process_batch_go resp i ts = some (p, u) →
      (↑(p.map ident) + ↑(u.map ident) : Multiset Transaction) = ↑(ts.map ident) := by
  intro i ts
  induction ts generalizing i with
  | nil =>
    intro p u h
    simp only [process_batch_go, Option.some.injEq, Prod.mk.injEq] at h
    simp [← h.1, ← h.2]
  | cons t ts ih =>
    intro p u h
    cases hc : outcomeOf (resp i (submittedDesc t)) with
    | success l =>
      simp only [process_batch_go, hc] at h
      rcases Option.map_eq_some'.mp h with ⟨⟨p', u'⟩, hrec, heq⟩
      obtain ⟨hp, hu⟩ := Prod.mk.injEq .. ▸ heq
      subst hp hu
      have := ih (i + 1) p' u' hrec
      simp only [List.map_cons, ident_dictSet_category]
      rw [← Multiset.cons_coe, Multiset.cons_add, this, ← Multiset.cons_coe]
    | failure =>
      simp only [process_batch_go, hc] at h
      rcases Option.map_eq_some'.mp h with ⟨⟨p', u'⟩, hrec, heq⟩
      obtain ⟨hp, hu⟩ := Prod.mk.injEq .. ▸ heq
      subst hp hu
      have := ih (i + 1) p' u' hrec
      simp only [List.map_cons]
      rw [← Multiset.cons_coe, Multiset.add_cons, this, ← Multiset.cons_coe]
    | crash =>
      simp only [process_batch_go, hc] at h
      exact absurd h (by simp)

lemma process_batch_go_length (resp : Nat → String → HFResponse)
    (i : Nat) (ts p u : List Transaction)
    (h : process_batch_go resp i ts = some (p, u)) :
    p.length + u.length = ts.length := by
  have hms := process_batch_go_multiset resp i ts p u h
  have hcard := congrArg Multiset.card hms
  simpa using hcard

/-- Every record the batch script classifies carries a `Category` field. -/
lemma classifiedFrom_category (resp : Nat → String → HFResponse)
    (i : Nat) (ts : List Transaction) :
    ∀ x ∈ classifiedFrom resp i ts, (dictGet x "Category").isSome = true := by
  intro x hx
  rw [classifiedFrom, List.mem_filterMap] at hx
  rcases hx with ⟨⟨j, t⟩, _, hf⟩
  cases hc : outcomeOf (resp j (submittedDesc t)) with
  | success l =>
    rw [hc] at hf
    simp only [Option.some.injEq] at hf
    rw [← hf, dictGet_dictSet_self]
    rfl
  | failure => rw [hc] at hf; exact absurd hf (by simp)
  | crash => rw [hc] at hf; exact absurd hf (by simp)

/-- When every call of the round succeeds, nothing fails. -/
lemma failedFrom_nil_of_success (resp : Nat → String → HFResponse)
    (hs : ∀ j d, isSuccess (resp j d) = true) :
    ∀ (i : Nat) (ts : List Transaction), failedFrom resp i ts = [] := by
  intro i ts
  induction ts generalizing i with
  | nil => simp [failedFrom]
  | cons t ts ih =>
    rcases (isSuccess_iff _).mp (hs i (submittedDesc t)) with ⟨l, hc⟩
    rw [failedFrom_cons_success resp i t ts l hc]
    exact ih (i + 1)

/-! ### Round-level lemmas -/

lemma adjust_batch_size_pos (st : SchedState)
    (h : 1 ≤ st.current_batch_size) : 1 ≤ adjust_batch_size st := by
  unfold adjust_batch_size
  split
  · exact le_max_left 1 _
  · split
    · omega
    · exact h

/-- The loop state one round produces, spelled out. -/
def roundResult (env : Env) (s : LoopState)
    (bp bu : List Transaction) : LoopState :=
  { round := s.round + 1
    processed := s.processed ++ bp
    unprocessed := bu ++ s.unprocessed.drop (adjust_batch_size s.sched)
    calls := s.calls + (s.unprocessed.take (adjust_batch_size s.sched)).length
    sleeps := s.sleeps +
      (if bu ++ s.unprocessed.drop (adjust_batch_size s.sched) = [] then 0 else 1)
    sched := cleanup_api_call_times (env.cleanT s.round)
      { current_batch_size := adjust_batch_size s.sched
        api_call_times := s.sched.api_call_times ++ [env.endT s.round]
        response_times :=
          s.sched.response_times ++ [env.endT s.round - env.startT s.round] } }

lemma categorizeRound_eq_some (env : Env) (s : LoopState)
    (bp bu : List Transaction)
    (h : process_batch (env.resp s.round)
        (s.unprocessed.take (adjust_batch_size s.sched)) = some (bp, bu)) :
    categorizeRound env s = some (roundResult env s bp bu) := by
  simp only [categorizeRound, h, roundResult]

lemma categorizeRound_eq_none (env : Env) (s : LoopState)
    (h : process_batch (env.resp s.round)
        (s.unprocessed.take (adjust_batch_size s.sched)) = none) :
    categorizeRound env s = none := by
  simp only [categorizeRound, h]

lemma categorizeRound_inv (env : Env) (s s' : LoopState)
    (h : categorizeRound env s = some s') :
    ∃ bp bu, process_batch (env.resp s.round)
        (s.unprocessed.take (adjust_batch_size s.sched)) = some (bp, bu) ∧
      s' = roundResult env s bp bu := by
  cases hpb : process_batch (env.resp s.round)
      (s.unprocessed.take (adjust_batch_size s.sched)) with
  | none => rw [categorizeRound_eq_none env s hpb] at h; exact absurd h (by simp)
  | some pu =>
    obtain ⟨bp, bu⟩ := pu
    rw [categorizeRound_eq_some env s bp bu hpb] at h
    exact ⟨bp, bu, rfl, (Option.some.inj h).symm⟩

/-- The invariant the scheduler maintains over the run started on `input`:
the batch size is positive, every processed record carries a `Category`
field, and the identities held in `processed` and in the queue together form
exactly the multiset of input identities. -/
def GoodState (input : List Transaction) (s : LoopState) : Prop :=
  1 ≤ s.sched.current_batch_size ∧
  (∀ t ∈ s.processed, (dictGet t "Category").isSome = true) ∧
  ((↑((s.processed ++ s.unprocessed).map ident) : Multiset Transaction) =
    ↑(input.map ident))

lemma GoodState_init (txs : List Transaction) : GoodState txs (initState txs) := by
  refine ⟨by simp [initState, initial_batch_size], ?_, ?_⟩
  · intro t ht; simp [initState] at ht
  · simp [initState]

lemma categorizeRound_good (env : Env) (input : List Transaction)
    (s s' : LoopState) (hg : GoodState input s)
    (h : categorizeRound env s = some s') : GoodState input s' := by
  obtain ⟨bp, bu, hpb, hs'⟩ := categorizeRound_inv env s s' h
  obtain ⟨hbs, hcat, hms⟩ := hg
  subst hs'
  refine ⟨?_, ?_, ?_⟩
  · show 1 ≤ adjust_batch_size s.sched
    exact adjust_batch_size_pos s.sched hbs
  · intro t ht
    rw [roundResult] at ht
    simp only [List.mem_append] at ht
    rcases ht with ht | ht
    · exact hcat t ht
    · obtain ⟨hcl, _⟩ := process_batch_go_eq_some (env.resp s.round) 0 _ bp bu hpb
      exact classifiedFrom_category (env.resp s.round) 0 _ t (hcl ▸ ht)
  · have hpbms := process_batch_go_multiset (env.resp s.round) 0 _ bp bu hpb
    rw [roundResult]
    simp only [List.map_append, ← Multiset.coe_add] at hms ⊢
    rw [← hms]
    have hsplit : (↑(s.unprocessed.map ident) : Multiset Transaction) =
        ↑((s.unprocessed.take (adjust_batch_size s.sched)).map ident) +
        ↑((s.unprocessed.drop (adjust_batch_size s.sched)).map ident) := by
      rw [Multiset.coe_add, ← List.map_append, List.take_append_drop]
    rw [hsplit, ← hpbms]
    simp only [add_assoc]

lemma categorizeRound_len_le (env : Env) (s s' : LoopState)
    (h : categorizeRound env s = some s') :
    s'.unprocessed.length ≤ s.unprocessed.length := by
  obtain ⟨bp, bu, hpb, hs'⟩ := categorizeRound_inv env s s' h
  subst hs'
  have hlen := process_batch_go_length (env.resp s.round) 0 _ bp bu hpb
  rw [roundResult]
  simp only [List.length_append]
  calc bu.length + (s.unprocessed.drop (adjust_batch_size s.sched)).length
      ≤ (s.unprocessed.take (adjust_batch_size s.sched)).length +
        (s.unprocessed.drop (adjust_batch_size s.sched)).length := by omega
    _ = s.unprocessed.length := by
        rw [← List.length_append, List.take_append_drop]

lemma categorizeRound_round (env : Env) (s s' : LoopState)
    (h : categorizeRound env s = some s') : s'.round = s.round + 1 := by
  obtain ⟨bp, bu, _, hs'⟩ := categorizeRound_inv env s s' h
  subst hs'
  rfl

lemma categorizeRound_isSome (env : Env) (s : LoopState)
    (hnc : ∀ j d, isCrash (env.resp s.round j d) = false) :
    (categorizeRound env s).isSome = true := by
  cases hpb : process_batch (env.resp s.round)
      (s.unprocessed.take (adjust_batch_size s.sched)) with
  | none =>
    have := process_batch_go_isSome (env.resp s.round) hnc 0
      (s.unprocessed.take (adjust_batch_size s.sched))
    rw [process_batch] at hpb
    rw [hpb] at this
    exact absurd this (by simp)
  | some pu =>
    obtain ⟨bp, bu⟩ := pu
    rw [categorizeRound_eq_some env s bp bu hpb]
    rfl

/-- A round in which every call succeeds classifies its whole batch; with a
nonempty queue and a positive batch size it strictly shrinks the queue. -/
lemma categorizeRound_progress (env : Env) (s : LoopState)
    (hbs : 1 ≤ s.sched.current_batch_size)
    (hne : s.unprocessed ≠ [])
    (hs : ∀ j d, isSuccess (env.resp s.round j d) = true) :
    ∃ s', categorizeRound env s = some s' ∧
      s'.unprocessed.length < s.unprocessed.length := by
  have hnc : ∀ j d, isCrash (env.resp s.round j d) = false := by
    intro j d
    rcases (isSuccess_iff _).mp (hs j d) with ⟨l, hc⟩
    unfold isCrash
    simp [hc]
  have hsome := categorizeRound_isSome env s hnc
  obtain ⟨s', hs'⟩ := Option.isSome_iff_exists.mp hsome
  refine ⟨s', hs', ?_⟩
  obtain ⟨bp, bu, hpb, heq⟩ := categorizeRound_inv env s s' hs'
  obtain ⟨_, hfl⟩ := process_batch_go_eq_some (env.resp s.round) 0 _ bp bu hpb
  rw [failedFrom_nil_of_success (env.resp s.round) hs 0] at hfl
  subst heq hfl
  rw [roundResult]
  simp only [List.nil_append, List.length_drop]
  have hpos := adjust_batch_size_pos s.sched hbs
  have hlen : 0 < s.unprocessed.length := List.length_pos.mpr hne
  omega

lemma categorizeRound_cbs (env : Env) (s s' : LoopState)
    (h : categorizeRound env s = some s') :
    s'.sched.current_batch_size = adjust_batch_size s.sched := by
  obtain ⟨bp, bu, _, hs'⟩ := categorizeRound_inv env s s' h
  subst hs'
  simp [roundResult, cleanup_api_call_times]

/-! ### Loop-level lemmas -/

lemma categorizeLoop_empty (env : Env) (fuel : Nat) (s : LoopState)
    (h : s.unprocessed = []) : categorizeLoop env fuel s = .done s := by
  cases fuel <;> simp [categorizeLoop, h]

lemma categorizeLoop_add (env : Env) :
    ∀ (a b : Nat) (s : LoopState),
      categorizeLoop env (a + b) s =
        match categorizeLoop env a s with
        | .outOfFuel s' => categorizeLoop env b s'
        | r => r := by
  intro a
  induction a with
  | zero =>
    intro b s
    rw [Nat.zero_add]
    by_cases h : s.unprocessed = []
    · rw [categorizeLoop_empty env b s h]
      have h0 : categorizeLoop env 0 s = .done s := categorizeLoop_empty env 0 s h
      rw [h0]
    · have h0 : categorizeLoop env 0 s = .outOfFuel s := by
        simp [categorizeLoop, h]
      rw [h0]
  | succ a ih =>
    intro b s
    have hadd : a + 1 + b = (a + b) + 1 := by omega
    rw [hadd]
    by_cases h : s.unprocessed = []
    · rw [categorizeLoop_empty env ((a + b) + 1) s h,
        categorizeLoop_empty env (a + 1) s h]
    · simp only [categorizeLoop, if_neg h]
      cases hr : categorizeRound env s with
      | none => rfl
      | some s' => exact ih b s'

lemma categorizeLoop_never_crashed (env : Env)
    (hnc : ∀ r j d, isCrash (env.resp r j d) = false) :
    ∀ (fuel : Nat) (s : LoopState), categorizeLoop env fuel s ≠ .crashed := by
  intro fuel
  induction fuel with
  | zero =>
    intro s
    unfold categorizeLoop
    split <;> simp
  | succ fuel ih =>
    intro s
    by_cases h : s.unprocessed = []
    · rw [categorizeLoop_empty env _ s h]; simp
    · have hsome := categorizeRound_isSome env s (fun j d => hnc s.round j d)
      obtain ⟨s', hs'⟩ := Option.isSome_iff_exists.mp hsome
      simp only [categorizeLoop, if_neg h, hs']
      exact ih s'

/-- Any invariant preserved by one round holds at every state the loop can
stop in; a `done` state has an empty queue, an `outOfFuel` state a nonempty
one. -/
lemma categorizeLoop_inv (env : Env) (P : LoopState → Prop)
    (hstep : ∀ x y, P x → categorizeRound env x = some y → P y) :
    ∀ (fuel : Nat) (s : LoopState), P s →
      (∀ s', categorizeLoop env fuel s = .done s' → P s' ∧ s'.unprocessed = []) ∧
      (∀ s', categorizeLoop env fuel s = .outOfFuel s' →
        P s' ∧ s'.unprocessed ≠ []) := by
  intro fuel
  induction fuel with
  | zero =>
    intro s hP
    constructor
    · intro s' h
      by_cases hc : s.unprocessed = []
      · simp only [categorizeLoop, if_pos hc, RunResult.done.injEq] at h
        exact h ▸ ⟨hP, hc⟩
      · simp only [categorizeLoop, if_neg hc] at h
        exact absurd h (by simp)
    · intro s' h
      by_cases hc : s.unprocessed = []
      · simp only [categorizeLoop, if_pos hc] at h
        exact absurd h (by simp)
      · simp only [categorizeLoop, if_neg hc, RunResult.outOfFuel.injEq] at h
        exact h ▸ ⟨hP, hc⟩
  | succ fuel ih =>
    intro s hP
    by_cases hc : s.unprocessed = []
    · rw [categorizeLoop_empty env _ s hc]
      constructor
      · intro s' h
        simp only [RunResult.done.injEq] at h
        exact h ▸ ⟨hP, hc⟩
      · intro s' h
        exact absurd h (by simp)
    · cases hr : categorizeRound env s with
      | none =>
        simp only [categorizeLoop, if_neg hc, hr]
        exact ⟨fun s' h => absurd h (by simp), fun s' h => absurd h (by simp)⟩
      | some s'' =>
        simp only [categorizeLoop, if_neg hc, hr]
        exact ih s'' (hstep s s'' hP hr)

lemma categorizeLoop_outOfFuel_round (env : Env) :
    ∀ (fuel : Nat) (s s' : LoopState),
      categorizeLoop env fuel s = .outOfFuel s' → s'.round = s.round + fuel := by
  intro fuel
  induction fuel with
  | zero =>
    intro s s' h
    by_cases hc : s.unprocessed = []
    · simp only [categorizeLoop, if_pos hc] at h
      exact absurd h (by simp)
    · simp only [categorizeLoop, if_neg hc, RunResult.outOfFuel.injEq] at h
      subst h
      rfl
  | succ fuel ih =>
    intro s s' h
    by_cases hc : s.unprocessed = []
    · rw [categorizeLoop_empty env _ s hc] at h
      exact absurd h (by simp)
    · cases hr : categorizeRound env s with
      | none =>
        simp only [categorizeLoop, if_neg hc, hr] at h
        exact absurd h (by simp)
      | some s'' =>
        simp only [categorizeLoop, if_neg hc, hr] at h
        have := ih s'' s' h
        have hr1 := categorizeRound_round env s s'' hr
        omega

lemma categorizeLoop_outOfFuel_len (env : Env) :
    ∀ (fuel : Nat) (s s' : LoopState),
      categorizeLoop env fuel s = .outOfFuel s' →
      s'.unprocessed.length ≤ s.unprocessed.length := by
  intro fuel
  induction fuel with
  | zero =>
    intro s s' h
    by_cases hc : s.unprocessed = []
    · simp only [categorizeLoop, if_pos hc] at h
      exact absurd h (by simp)
    · simp only [categorizeLoop, if_neg hc, RunResult.outOfFuel.injEq] at h
      rw [h]
  | succ fuel ih =>
    intro s s' h
    by_cases hc : s.unprocessed = []
    · rw [categorizeLoop_empty env _ s hc] at h
      exact absurd h (by simp)
    · cases hr : categorizeRound env s with
      | none =>
        simp only [categorizeLoop, if_neg hc, hr] at h
        exact absurd h (by simp)
      | some s'' =>
        simp only [categorizeLoop, if_neg hc, hr] at h
        exact le_trans (ih s'' s' h) (categorizeRound_len_le env s s'' hr)

/-- Once every round succeeds, fuel equal to the queue length drains it. -/
lemma categorizeLoop_terminates (env : Env) (N : Nat)
    (hsucc : ∀ r, N ≤ r → ∀ j d, isSuccess (env.resp r j d) = true) :
    ∀ (k : Nat) (s : LoopState), 1 ≤ s.sched.current_batch_size →
      N ≤ s.round → s.unprocessed.length ≤ k →
      ∃ s', categorizeLoop env k s = .done s' := by
  intro k
  induction k with
  | zero =>
    intro s _ _ h3
    have hnil : s.unprocessed = [] := by
      have : s.unprocessed.length = 0 := Nat.le_zero.mp h3
      exact List.length_eq_zero.mp this
    exact ⟨s, categorizeLoop_empty env 0 s hnil⟩
  | succ k ih =>
    intro s h1 h2 h3
    by_cases hc : s.unprocessed = []
    · exact ⟨s, categorizeLoop_empty env _ s hc⟩
    · obtain ⟨s', hr, hlt⟩ := categorizeRound_progress env s h1 hc (hsucc s.round h2)
      have hcbs : 1 ≤ s'.sched.current_batch_size := by
        rw [categorizeRound_cbs env s s' hr]
        exact adjust_batch_size_pos _ h1
      have hround : N ≤ s'.round := by
        rw [categorizeRound_round env s s' hr]
        omega
      obtain ⟨s'', hdone⟩ := ih s' hcbs hround (by omega)
      refine ⟨s'', ?_⟩
      simp only [categorizeLoop, if_neg hc, hr]
      exact hdone

/-! ### Concrete instances used to exercise the theorems -/

/-- A response that classifies the record as a grocery purchase. -/
def okResp : HFResponse :=
  { ok := true, labels := some ["Grocery", "Snacks"], hasScores := true }

/-- A clean per-record failure (HTTP error). -/
def badResp : HFResponse :=
  { ok := false, labels := none, hasScores := false }

/-- A classifier that always succeeds, with all clocks at 0. -/
def succEnv : Env :=
  { resp := fun _ _ _ => okResp
    startT := fun _ => 0
    endT := fun _ => 0
    cleanT := fun _ => 0 }

/-- A classifier that always fails cleanly, with all clocks at 0. -/
def failEnv : Env :=
  { resp := fun _ _ _ => badResp
    startT := fun _ => 0
    endT := fun _ => 0
    cleanT := fun _ => 0 }

/-- A per-call response pattern: the first record of each batch succeeds,
the rest fail cleanly. -/
def mixResp : Nat → String → HFResponse :=
  fun j _ => if j = 0 then okResp else badResp

/-- `mixResp` as a full environment, with all clocks at 0. -/
def mixEnv : Env :=
  { resp := fun _ => mixResp
    startT := fun _ => 0
    endT := fun _ => 0
    cleanT := fun _ => 0 }

def tx1 : Transaction := [("Description", "apples"), ("Amount", "30")]

/-- A record with no `Description` field. -/
def tx2 : Transaction := [("Amount", "7")]

def cTx : Transaction := [("Description", "coffee"), ("Amount", "3")]

/-- The loop state after one all-failing round on `[cTx]`. -/
def c5State1 : LoopState :=
  { round := 1, processed := [], unprocessed := [cTx], calls := 1, sleeps := 1,
    sched := { current_batch_size := 50, api_call_times := [0],
               response_times := [0] } }

/-- The loop state after six all-failing rounds on `[cTx]`. -/
def c5State : LoopState :=
  { round := 6, processed := [], unprocessed := [cTx], calls := 6, sleeps := 6,
    sched := { current_batch_size := 46
               api_call_times := [0, 0, 0, 0, 0, 0]
               response_times := [0, 0, 0, 0, 0, 0] } }

/-- The loop state after one `mixEnv` round on `[tx1, tx2]`. -/
def c4State : LoopState :=
  { round := 1
    processed := [[("Description", "apples"), ("Amount", "30"), ("Category", "Grocery")]]
    unprocessed := [tx2], calls := 2, sleeps := 1,
    sched := { current_batch_size := 50, api_call_times := [0],
               response_times := [0] } }

/-- A parse oracle on which `json.loads` always raises. -/
def noParse : String → Option (List Transaction) := fun _ => none

def exIds : List String := ["id1", "id2"]

def tx3 : Transaction := [("Transaction ID", "id3"), ("Amount", "1")]

def tx4 : Transaction := [("Transaction ID", "id1"), ("Amount", "2")]

/-! ### Claim theorems -/

/-- Claim C3: `adjust_batch_size` keeps the batch size at least 1; it
decreases it by exactly 1 only when the 60-second call window is saturated
(at least two recorded call timestamps whose newest minus oldest is under
60); otherwise it increases it by exactly 1 only when at least 5 latency
samples exist and the last five average under 1 second; in all other cases
the batch size is unchanged; and the initial batch size is 50. -/
theorem C3_batch_size_policy (st : SchedState)
    (h : 1 ≤ st.current_batch_size) :
    1 ≤ adjust_batch_size st ∧
    initial_batch_size = 50 ∧
    (adjust_batch_size st < st.current_batch_size →
      window_saturated st ∧
      adjust_batch_size st = st.current_batch_size - 1) ∧
    (st.current_batch_size < adjust_batch_size st →
      ¬ window_saturated st ∧ fast_responses st ∧
      adjust_batch_size st = st.current_batch_size + 1) ∧
    (¬ window_saturated st → ¬ fast_responses st →
      adjust_batch_size st = st.current_batch_size) := by
  refine ⟨adjust_batch_size_pos st h, rfl, ?_, ?_, ?_⟩
  · intro hlt
    by_cases hw : window_saturated st
    · refine ⟨hw, ?_⟩
      unfold adjust_batch_size at hlt ⊢
      rw [if_pos hw] at hlt ⊢
      omega
    · exfalso
      unfold adjust_batch_size at hlt
      rw [if_neg hw] at hlt
      by_cases hf : fast_responses st
      · rw [if_pos hf] at hlt; omega
      · rw [if_neg hf] at hlt; omega
  · intro hgt
    by_cases hw : window_saturated st
    · exfalso
      unfold adjust_batch_size at hgt
      rw [if_pos hw] at hgt
      omega
    · by_cases hf : fast_responses st
      · refine ⟨hw, hf, ?_⟩
        unfold adjust_batch_size
        rw [if_neg hw, if_pos hf]
      · exfalso
        unfold adjust_batch_size at hgt
        rw [if_neg hw, if_neg hf] at hgt
        omega
  · intro hw hf
    unfold adjust_batch_size
    rw [if_neg hw, if_neg hf]

theorem C3_batch_size_policy_w :
    1 ≤ adjust_batch_size ⟨50, [], []⟩ :=
  (C3_batch_size_policy ⟨50, [], []⟩ (by decide)).1

lemma mem_headD (l : List ℚ) (h : l ≠ []) : l.headD 0 ∈ l := by
  cases l with
  | nil => exact absurd rfl h
  | cons a l => simp

lemma mem_getLastD : ∀ (l : List ℚ) (d : ℚ), l ≠ [] → l.getLastD d ∈ l := by
  intro l
  induction l with
  | nil => intro d h; exact absurd rfl h
  | cons a l ih =>
    intro d _
    rw [List.getLastD_cons]
    cases hl : l with
    | nil => simp [hl]
    | cons b l' =>
      have hmem := ih a (by simp [hl])
      exact List.mem_cons_of_mem a (hl ▸ hmem)

/-- Claim C9: when the call-time history has been pruned to the trailing
60 seconds of some instant `T` and its timestamps are nondecreasing, any two
or more surviving timestamps span strictly less than 60 seconds, so
`adjust_batch_size` takes its decrease branch; the latency-based increase
branch is reachable only when at most one call remains in the window. -/
theorem C9_window_forces_decrease (st : SchedState) (T : ℚ)
    (_hsorted : st.api_call_times.Pairwise (· ≤ ·))
    (hwin : ∀ t ∈ st.api_call_times, 0 ≤ T - t ∧ T - t < 60) :
    (2 ≤ st.api_call_times.length →
      window_saturated st ∧
      adjust_batch_size st = max 1 (st.current_batch_size - 1)) ∧
    (¬ window_saturated st → st.api_call_times.length ≤ 1) := by
  have hmain : 2 ≤ st.api_call_times.length →
      window_saturated st ∧
      adjust_batch_size st = max 1 (st.current_batch_size - 1) := by
    intro h2
    have hne : st.api_call_times ≠ [] := by
      intro hnil
      rw [hnil] at h2
      simp at h2
    have hlast := hwin _ (mem_getLastD st.api_call_times 0 hne)
    have hhead := hwin _ (mem_headD st.api_call_times hne)
    have hspan : st.api_call_times.getLastD 0 - st.api_call_times.headD 0 < 60 := by
      linarith [hlast.1, hhead.2]
    have hsat : window_saturated st := ⟨by omega, hspan⟩
    refine ⟨hsat, ?_⟩
    unfold adjust_batch_size
    rw [if_pos hsat]
  refine ⟨hmain, ?_⟩
  intro hnw
  by_contra hlen
  push_neg at hlen
  exact hnw (hmain (by omega)).1

theorem C9_window_forces_decrease_w :
    window_saturated ⟨50, [0, 30], []⟩ ∧
    adjust_batch_size ⟨50, [0, 30], []⟩ = max 1 (50 - 1) :=
  (C9_window_forces_decrease ⟨50, [0, 30], []⟩ 30 (by decide)
    (by intro t ht; fin_cases ht <;> norm_num)).1 (by decide)

/-- Claim C6: whenever the batch script returns, every input record lands in
exactly one of its two outputs: the classified output is precisely the
in-order subsequence of records whose call succeeded, each with `Category`
set to the top-ranked label of its response, and the unclassified output is
precisely the in-order subsequence of unmutated records whose call failed;
a record with no `Description` field is submitted as the empty string. -/
theorem C6_process_batch_partition (resp : Nat → String → HFResponse)
    (ts p u : List Transaction)
    (h : process_batch resp ts = some (p, u)) :
    p = classifiedFrom resp 0 ts ∧
    u = failedFrom resp 0 ts ∧
    (∀ t, dictGet t "Description" = none → submittedDesc t = "") := by
  obtain ⟨hp, hu⟩ := process_batch_go_eq_some resp 0 ts p u h
  refine ⟨hp, hu, ?_⟩
  intro t ht
  simp [submittedDesc, ht]

theorem C6_process_batch_partition_w :
    [[("Description", "apples"), ("Amount", "30"), ("Category", "Grocery")]] =
      classifiedFrom mixResp 0 [tx1, tx2] :=
  (C6_process_batch_partition mixResp [tx1, tx2]
    [[("Description", "apples"), ("Amount", "30"), ("Category", "Grocery")]]
    [tx2] (by decide)).1

/-- Claim C4: after every round, the new work queue is exactly the records
that failed in this round (in their original relative order) followed by the
untouched remainder of the previous queue. -/
theorem C4_retry_ordering (env : Env) (s s' : LoopState)
    (h : categorizeRound env s = some s') :
    s'.unprocessed =
      failedFrom (env.resp s.round) 0
        (s.unprocessed.take (adjust_batch_size s.sched)) ++
      s.unprocessed.drop (adjust_batch_size s.sched) := by
  obtain ⟨bp, bu, hpb, hs'⟩ := categorizeRound_inv env s s' h
  obtain ⟨_, hu⟩ := process_batch_go_eq_some _ 0 _ bp bu hpb
  subst hs'
  simp only [roundResult]
  rw [hu]

theorem C4_retry_ordering_w :
    c4State.unprocessed =
      failedFrom (mixEnv.resp (initState [tx1, tx2]).round) 0
        ((initState [tx1, tx2]).unprocessed.take
          (adjust_batch_size (initState [tx1, tx2]).sched)) ++
      (initState [tx1, tx2]).unprocessed.drop
        (adjust_batch_size (initState [tx1, tx2]).sched) :=
  C4_retry_ordering mixEnv (initState [tx1, tx2]) c4State (by
    norm_num [categorizeRound, adjust_batch_size, window_saturated,
      fast_responses, initState, process_batch, process_batch_go, outcomeOf,
      mixEnv, mixResp, okResp, badResp, cleanup_api_call_times, tx1, tx2,
      initial_batch_size, submittedDesc, dictGet, dictSet, lastN, c4State]
    decide)

/-- Claim C2: at every point the loop can be observed at, the identities
split across `processed`, the batch about to be drawn, and the rest of the
queue form exactly the multiset of input identities; in particular at
termination the identities in `processed` are exactly the input identities —
no record is duplicated and none is dropped between rounds. -/
theorem C2_no_duplication_no_loss (env : Env) (txs : List Transaction) :
    (∀ (k : Nat) (s : LoopState),
      categorizeLoop env k (initState txs) = .outOfFuel s →
      ((↑((s.processed ++ s.unprocessed).map ident) : Multiset Transaction) =
        ↑(txs.map ident)) ∧
      ((↑(s.processed.map ident) : Multiset Transaction) +
        ↑((s.unprocessed.take (adjust_batch_size s.sched)).map ident) +
        ↑((s.unprocessed.drop (adjust_batch_size s.sched)).map ident) =
        ↑(txs.map ident))) ∧
    (∀ (k : Nat) (s : LoopState),
      categorizeLoop env k (initState txs) = .done s →
      (↑(s.processed.map ident) : Multiset Transaction) = ↑(txs.map ident)) := by
  have hinv := fun (k : Nat) =>
    categorizeLoop_inv env (GoodState txs)
      (fun x y hx hr => categorizeRound_good env txs x y hx hr) k
      (initState txs) (GoodState_init txs)
  constructor
  · intro k s h
    obtain ⟨⟨_, _, hms⟩, _⟩ := (hinv k).2 s h
    refine ⟨hms, ?_⟩
    simp only [List.map_append, ← Multiset.coe_add] at hms
    have hsplit : (↑((s.unprocessed.take (adjust_batch_size s.sched)).map ident) :
        Multiset Transaction) +
        ↑((s.unprocessed.drop (adjust_batch_size s.sched)).map ident) =
        ↑(s.unprocessed.map ident) := by
      rw [Multiset.coe_add, ← List.map_append, List.take_append_drop]
    rw [add_assoc, hsplit]
    exact hms
  · intro k s h
    obtain ⟨⟨_, _, hms⟩, hemp⟩ := (hinv k).1 s h
    rw [hemp] at hms
    simpa using hms

theorem C2_no_duplication_no_loss_w :
    ((↑((c5State1.processed ++ c5State1.unprocessed).map ident) :
        Multiset Transaction) = ↑(([cTx] : List Transaction).map ident)) ∧
    ((↑(c5State1.processed.map ident) : Multiset Transaction) +
      ↑((c5State1.unprocessed.take (adjust_batch_size c5State1.sched)).map ident) +
      ↑((c5State1.unprocessed.drop (adjust_batch_size c5State1.sched)).map ident) =
      ↑(([cTx] : List Transaction).map ident)) :=
  (C2_no_duplication_no_loss failEnv [cTx]).1 1 c5State1 (by
    norm_num [categorizeLoop, categorizeRound, adjust_batch_size,
      window_saturated, fast_responses, initState, process_batch,
      process_batch_go, outcomeOf, failEnv, badResp, cleanup_api_call_times,
      cTx, initial_batch_size, submittedDesc, dictGet, lastN, c5State1])

/-- Claim C1: when the classifier (which never crashes the batch script)
succeeds on every call from some round `N` on, `categorize` terminates
within `N` plus the input length rounds, and the returned `processed`
output holds every input record exactly once (as a multiset of identities),
each with its `Category` field set; the empty input terminates at once with
empty output and zero classification calls. -/
theorem C1_completeness (env : Env) (txs : List Transaction) (N : Nat)
    (hnc : ∀ r j d, isCrash (env.resp r j d) = false)
    (hsucc : ∀ r, N ≤ r → ∀ j d, isSuccess (env.resp r j d) = true) :
    (∃ s, categorizeLoop env (N + txs.length) (initState txs) = .done s ∧
      (↑(s.processed.map ident) : Multiset Transaction) = ↑(txs.map ident) ∧
      ∀ t ∈ s.processed, (dictGet t "Category").isSome = true) ∧
    (txs = [] →
      ∀ fuel, categorizeLoop env fuel (initState txs) = .done (initState txs) ∧
        (initState txs).processed = [] ∧ (initState txs).calls = 0) := by
  have hinv := fun (k : Nat) (s : LoopState) (hs : GoodState txs s) =>
    categorizeLoop_inv env (GoodState txs)
      (fun x y hx hr => categorizeRound_good env txs x y hx hr) k s hs
  constructor
  · cases hN : categorizeLoop env N (initState txs) with
    | crashed => exact absurd hN (categorizeLoop_never_crashed env hnc N _)
    | done s =>
      have hdone : categorizeLoop env (N + txs.length) (initState txs) = .done s := by
        rw [categorizeLoop_add env N txs.length, hN]
      obtain ⟨⟨hcbs, hcat, hms⟩, hemp⟩ :=
        (hinv N _ (GoodState_init txs)).1 s hN
      refine ⟨s, hdone, ?_, hcat⟩
      rw [hemp] at hms
      simpa using hms
    | outOfFuel s =>
      obtain ⟨⟨hcbs, hcat, hms⟩, _⟩ := (hinv N _ (GoodState_init txs)).2 s hN
      have hround : s.round = N := by
        have := categorizeLoop_outOfFuel_round env N (initState txs) s hN
        simpa [initState] using this
      have hlen : s.unprocessed.length ≤ txs.length := by
        have := categorizeLoop_outOfFuel_len env N (initState txs) s hN
        simpa [initState] using this
      obtain ⟨s', hdone'⟩ :=
        categorizeLoop_terminates env N hsucc txs.length s hcbs (by omega) hlen
      have hfull : categorizeLoop env (N + txs.length) (initState txs) =
          .done s' := by
        rw [categorizeLoop_add env N txs.length, hN]
        exact hdone'
      obtain ⟨⟨_, hcat', hms'⟩, hemp'⟩ :=
        (hinv txs.length s ⟨hcbs, hcat, hms⟩).1 s' hdone'
      refine ⟨s', hfull, ?_, hcat'⟩
      rw [hemp'] at hms'
      simpa using hms'
  · intro hnil fuel
    refine ⟨?_, rfl, rfl⟩
    subst hnil
    exact categorizeLoop_empty env fuel (initState []) rfl

theorem C1_completeness_w :
    (∃ s, categorizeLoop succEnv (0 + ([tx1] : List Transaction).length)
        (initState [tx1]) = .done s ∧
      (↑(s.processed.map ident) : Multiset Transaction) =
        ↑(([tx1] : List Transaction).map ident) ∧
      ∀ t ∈ s.processed, (dictGet t "Category").isSome = true) ∧
    (([tx1] : List Transaction) = [] →
      ∀ fuel, categorizeLoop succEnv fuel (initState [tx1]) =
          .done (initState [tx1]) ∧
        (initState [tx1]).processed = [] ∧ (initState [tx1]).calls = 0) :=
  C1_completeness succEnv [tx1] 0
    (fun _ _ _ => show isCrash okResp = false by decide)
    (fun _ _ _ _ => show isSuccess okResp = true by decide)

/-- The retry loop of `process_transactions` raises exactly when all three
attempts raise. -/
lemma process_transactions_error_iff
    (attempts : Nat → Option (List Transaction × List Transaction)) :
    process_transactions attempts = .error () ↔
      (attempts 0 = none ∧ attempts 1 = none ∧ attempts 2 = none) := by
  unfold process_transactions max_retries
  show process_transactions_go attempts (2 + 1) 0 = .error () ↔ _
  rcases h0 : attempts 0 with _ | r0
  · rcases h1 : attempts 1 with _ | r1
    · rcases h2 : attempts 2 with _ | r2
      · simp [process_transactions_go, h0, h1, h2]
      · simp [process_transactions_go, h0, h1, h2]
    · simp [process_transactions_go, h0, h1]
  · simp [process_transactions_go, h0]

/-- Claim C7: the scheduler never fails permanently on its own.  As long as
the classifier honours its contract of returning each record as classified
or unclassified (it never kills the batch script), the `categorize` loop
never raises — every run either drains the queue or is still retrying —
and each round sleeps the fixed `retry_delay = 5` exactly when work is
left over; in the `categorizeTransactions` variant, `process_transactions`
raises only when all three whole attempts raise internally, so per-record
classification failures never surface an error to the caller. -/
theorem C7_no_permanent_failure (env : Env)
    (attempts : Nat → Option (List Transaction × List Transaction))
    (hnc : ∀ r j d, isCrash (env.resp r j d) = false) :
    (∀ fuel s, categorizeLoop env fuel s ≠ .crashed) ∧
    retry_delay = 5 ∧
    (∀ s s', categorizeRound env s = some s' →
      s'.sleeps = s.sleeps + (if s'.unprocessed = [] then 0 else 1)) ∧
    (process_transactions attempts = .error () ↔
      (attempts 0 = none ∧ attempts 1 = none ∧ attempts 2 = none)) := by
  refine ⟨categorizeLoop_never_crashed env hnc, rfl, ?_,
    process_transactions_error_iff attempts⟩
  intro s s' h
  obtain ⟨bp, bu, _, hs'⟩ := categorizeRound_inv env s s' h
  subst hs'
  rfl

theorem C7_no_permanent_failure_w :
    retry_delay = 5 :=
  (C7_no_permanent_failure succEnv (fun _ => some ([], []))
    (fun _ _ _ => show isCrash okResp = false by decide)).2.1

/-- Claim C8: `categorize` raises a fatal error exactly when the input
payload fails to parse; in that case the outcome is decided before and
independently of any classification behaviour; and on any well-formed
input, clean per-record classification failures never surface an error —
the run is never in the crashed state. -/
theorem C8_parse_failure_fatal (parse : String → Option (List Transaction))
    (env : Env) (fuel : Nat) (data : String)
    (hnc : ∀ r j d, isCrash (env.resp r j d) = false) :
    (categorize parse env fuel data = .fatalParse ↔ parse data = none) ∧
    (parse data = none →
      ∀ env' fuel', categorize parse env fuel data =
        categorize parse env' fuel' data) ∧
    categorize parse env fuel data ≠ .runResult .crashed := by
  cases hp : parse data with
  | none =>
    refine ⟨?_, ?_, ?_⟩
    · simp [categorize, hp]
    · intro _ env' fuel'
      simp [categorize, hp]
    · simp [categorize, hp]
  | some txs =>
    refine ⟨?_, ?_, ?_⟩
    · simp [categorize, hp]
    · intro hnone
      exact absurd hnone (by simp)
    · simp only [categorize, hp, ne_eq, CatResult.runResult.injEq]
      exact categorizeLoop_never_crashed env hnc fuel (initState txs)

theorem C8_parse_failure_fatal_w :
    categorize noParse succEnv 0 "oops" = .fatalParse :=
  (C8_parse_failure_fatal noParse succEnv 0 "oops"
    (fun _ _ _ => show isCrash okResp = false by decide)).1.mpr rfl

/-- Claim C10: `filter_existing` returns exactly the order-preserving
subsequence of its input whose `Transaction ID` is not among the identifiers
already persisted, so no transaction already stored under its identifier is
ever passed on to classification. -/
theorem C10_filter_existing_subsequence (existing_ids : List String)
    (txs : List Transaction) :
    (filter_existing existing_ids txs).Sublist txs ∧
    (∀ t, t ∈ filter_existing existing_ids txs ↔
      t ∈ txs ∧ ∀ v, dictGet t "Transaction ID" = some v → v ∉ existing_ids) ∧
    (∀ t ∈ filter_existing existing_ids txs, ∀ v,
      dictGet t "Transaction ID" = some v → v ∉ existing_ids) := by
  have hmem : ∀ t, t ∈ filter_existing existing_ids txs ↔
      t ∈ txs ∧ ∀ v, dictGet t "Transaction ID" = some v → v ∉ existing_ids := by
    intro t
    unfold filter_existing
    rw [List.mem_filter]
    cases hg : dictGet t "Transaction ID" with
    | none =>
      simp only [hg]
      constructor
      · rintro ⟨ht, _⟩
        exact ⟨ht, fun v hv => absurd hv (by simp)⟩
      · rintro ⟨ht, _⟩
        exact ⟨ht, by simp⟩
    | some v =>
      simp only [hg]
      constructor
      · rintro ⟨ht, hpred⟩
        refine ⟨ht, ?_⟩
        intro w hw
        obtain rfl : v = w := by injection hw
        simp only [decide_eq_true_eq] at hpred
        intro hmem
        exact hpred (List.elem_iff.mpr hmem)
      · rintro ⟨ht, hall⟩
        refine ⟨ht, ?_⟩
        have hni := hall v rfl
        simp only [decide_eq_true_eq]
        intro hcont
        exact hni (List.elem_iff.mp hcont)
  refine ⟨List.filter_sublist txs, hmem, ?_⟩
  intro t ht v hv
  exact ((hmem t).mp ht).2 v hv

theorem C10_filter_existing_subsequence_w :
    (filter_existing exIds [tx3, tx4]).Sublist [tx3, tx4] :=
  (C10_filter_existing_subsequence exIds [tx3, tx4]).1

/-- Claim C5 is false as stated: the code never truncates the latency
history.  Running six all-failing rounds on a one-record input reaches a
state (right after its telemetry update) whose latency history holds six
entries, not at most the five most recent. -/
theorem C5_latency_history_counterexample :
    categorizeLoop failEnv 6 (initState [cTx]) = .outOfFuel c5State ∧
    ¬ c5State.sched.response_times.length ≤ 5 := by
  constructor
  · norm_num [categorizeLoop, categorizeRound, adjust_batch_size,
      window_saturated, fast_responses, initState, process_batch,
      process_batch_go, outcomeOf, failEnv, badResp, cleanup_api_call_times,
      cTx, initial_batch_size, submittedDesc, dictGet, lastN, c5State]
  · decide

/-- Claim C5 (amended): after the telemetry update of every round, every
timestamp in the call-time history lies within the trailing 60 seconds of
the update time, while the latency history is the previous latency history
with this round's duration appended — it grows without truncation, and only
its most recent five entries are ever consulted by the batch-size policy. -/
theorem C5_telemetry_amended (env : Env) (s s' : LoopState)
    (h : categorizeRound env s = some s') :
    (∀ t ∈ s'.sched.api_call_times, env.cleanT s.round - t < 60) ∧
    s'.sched.response_times =
      s.sched.response_times ++ [env.endT s.round - env.startT s.round] := by
  obtain ⟨bp, bu, _, hs'⟩ := categorizeRound_inv env s s' h
  subst hs'
  constructor
  · intro t ht
    simp only [roundResult, cleanup_api_call_times, List.mem_filter] at ht
    exact of_decide_eq_true ht.2
  · rfl

theorem C5_telemetry_amended_w :
    c5State1.sched.response_times =
      (initState [cTx]).sched.response_times ++
        [failEnv.endT (initState [cTx]).round -
          failEnv.startT (initState [cTx]).round] :=
  (C5_telemetry_amended failEnv (initState [cTx]) c5State1 (by
    norm_num [categorizeRound, adjust_batch_size, window_saturated,
      fast_responses, initState, process_batch, process_batch_go, outcomeOf,
      failEnv, badResp, cleanup_api_call_times, cTx, initial_batch_size,
      submittedDesc, dictGet, lastN, c5State1])).2
